import Mathlib

/-!
Shallow embedding of the `songvi/robo` synthetic-workload orchestrator:
the dispatcher's worker registry (registration, heartbeat, deregistration,
liveness sweep, job dispatch), the worker agent's job round trip, and the
job-service cycle orchestrator (`StartCycle`, `checkCycleCompletion`)
together with the store they mutate.  Go maps are embedded as association
lists with string keys; message-bus traffic is embedded at the level of
decoded messages; wall-clock instants are natural-number seconds for the
dispatcher plane and integers (Unix seconds) for persisted rows.
-/

namespace Robo

/-! ## Association-list maps (embedding of Go `map[string]V`) -/

/-- Lookup in an association list, first match wins (Go map read). -/
def alookup (k : String) : List (String × α) → Option α
  | [] => none
  | (a, v) :: m => if a = k then some v else alookup k m

/-- Remove every binding of a key (Go `delete(m, k)`). -/
def aerase (k : String) : List (String × α) → List (String × α)
  | [] => []
  | (a, v) :: m => if a = k then aerase k m else (a, v) :: aerase k m

/-- Overwrite the binding of a key (Go `m[k] = v`). -/
def ainsert (k : String) (v : α) (m : List (String × α)) : List (String × α) :=
  (k, v) :: aerase k m

/-- The keys of an association list. -/
def akeys (m : List (String × α)) : List String := m.map Prod.fst

/-- Key sets are duplicate-free; every reachable map state satisfies this. -/
def NodupKeys (m : List (String × α)) : Prop := (akeys m).Nodup

/-! ## Dispatcher data model (`dispatcher` package, `models.Worker`) -/

/-- Embedding of `models.Worker`: the struct has exactly two fields,
`UUID` and `Name`; there is no capabilities field. -/
structure Worker where
  uuid : String
  name : String
deriving DecidableEq, Repr

/-- Embedding of `dispatcher.WorkerRegistrationMessage` (the decoded JSON of
register / heartbeat / deregister traffic). -/
structure WorkerRegistrationMessage where
  workerID : String
  name : String
  capabilities : List String
  status : String
deriving DecidableEq, Repr

/-- The dispatcher's two maps: `workers : map[string]models.Worker` and
`lastHeartbeat : map[string]time.Time` (instants as seconds). -/
structure DispatcherState where
  workers : List (String × Worker)
  lastHeartbeat : List (String × Nat)
deriving DecidableEq, Repr

/-- `NewDispatcher` starts with both maps empty. -/
def dInit : DispatcherState := ⟨[], []⟩

/-- Embedding of the body of `handleRegistrations` for one decoded message:
messages whose status is not "registered" are skipped; otherwise
`workers[id] = Worker{Name: msg.Name, UUID: msg.WorkerID}` and
`lastHeartbeat[id] = now`.  Note the source drops `msg.Capabilities`. -/
def handleRegistration (st : DispatcherState) (msg : WorkerRegistrationMessage)
    (now : Nat) : DispatcherState :=
  if msg.status = "registered" then
    { workers := ainsert msg.workerID ⟨msg.workerID, msg.name⟩ st.workers,
      lastHeartbeat := ainsert msg.workerID now st.lastHeartbeat }
  else st

/-- Embedding of the body of `handleHeartbeats` for one decoded message:
messages whose status is not "heartbeat" are skipped; otherwise
`lastHeartbeat[id] = now` unconditionally (the source never consults the
`workers` map here). -/
def handleHeartbeat (st : DispatcherState) (msg : WorkerRegistrationMessage)
    (now : Nat) : DispatcherState :=
  if msg.status = "heartbeat" then
    { st with lastHeartbeat := ainsert msg.workerID now st.lastHeartbeat }
  else st

/-- Embedding of the body of `handleDeregistrations` for one decoded message:
messages whose status is not "deregistered" are skipped; otherwise the id is
deleted from both maps. -/
def handleDeregistration (st : DispatcherState) (msg : WorkerRegistrationMessage) :
    DispatcherState :=
  if msg.status = "deregistered" then
    { workers := aerase msg.workerID st.workers,
      lastHeartbeat := aerase msg.workerID st.lastHeartbeat }
  else st

/-- `now.Sub(lastHB) > 15*time.Second` on second-granularity instants. -/
def staleAt (now t : Nat) : Bool := decide (t + 15 < now)

/-- Embedding of one firing of the `cleanupInactiveWorkers` ticker: every
heartbeat entry older than 15 s is deleted from both maps.  A `workers` entry
with no heartbeat entry is never iterated over, hence kept. -/
def cleanupInactiveWorkers (st : DispatcherState) (now : Nat) : DispatcherState :=
  { workers := st.workers.filter (fun p =>
      match alookup p.1 st.lastHeartbeat with
      | some t => !staleAt now t
      | none => true),
    lastHeartbeat := st.lastHeartbeat.filter (fun p => !staleAt now p.2) }

/-- Embedding of `GetActiveWorkers`: the values of the `workers` map. -/
def getActiveWorkers (st : DispatcherState) : List Worker :=
  st.workers.map Prod.snd

/-! ## Job model (`models.Job`) and `DispatchJob` -/

/-- Embedding of `models.Job` (the eleven JSON-tagged fields; blobs kept as
their serialized strings, int64 instants as `Int`). -/
structure Job where
  uuid : String
  workerID : String
  name : String
  inputData : String
  outputData : String
  error : String
  startAt : Int
  doneAt : Int
  status : String
  cycleUUID : String
  sessionID : String
deriving DecidableEq, Repr

/-- The Go zero value of `models.Job`. -/
def Job.zero : Job := ⟨"", "", "", "", "", "", 0, 0, "", "", ""⟩

/-- Result of `DispatchJob`, matching its error cases in source order. -/
inductive DispatchResult where
  | ok
  | noWorkers
  | marshalErr
  | publishErr
deriving DecidableEq, Repr

/-- What a `DispatchJob` call produced: its return value, the final value of
the `*models.Job` argument (the source mutates it in place), and the
successfully published `(subject, payload)` messages. -/
structure DispatchOutcome where
  result : DispatchResult
  job : Job
  published : List (String × Job)
deriving DecidableEq, Repr

/-- Embedding of `DispatchJob`.  `pick` resolves `rand.Intn(len(workers))`
(the source takes `pick % length`, so every index is reachable);
`marshalOk` / `publishOk` resolve whether `json.Marshal` and the bus publish
succeed.  On the empty snapshot it returns the `no_workers` error before
touching the job; otherwise it stamps `job.WorkerID` first and only then
serializes and publishes to `dispatcher.job.<worker uuid>`. -/
def dispatchJob (st : DispatcherState) (job : Job) (pick : Nat)
    (marshalOk publishOk : Bool) : DispatchOutcome :=
  let ws := getActiveWorkers st
  if hws : ws.length = 0 then
    ⟨.noWorkers, job, []⟩
  else
    let w := ws.get ⟨pick % ws.length, Nat.mod_lt _ (Nat.pos_of_ne_zero hws)⟩
    let job1 := { job with workerID := w.uuid }
    if !marshalOk then ⟨.marshalErr, job1, []⟩
    else if !publishOk then ⟨.publishErr, job1, []⟩
    else ⟨.ok, job1, [("dispatcher.job." ++ w.uuid, job1)]⟩

/-! ## Dispatcher event traces

The three subscription consumers and the sweeper mutate the two maps under
their locks; an execution is embedded as the sequence of decoded messages and
ticker firings, each tagged with its arrival instant. -/

/-- One dispatcher-plane event: a decoded message on one of the three
membership subjects, or a sweeper tick. -/
inductive DEvent where
  | reg (msg : WorkerRegistrationMessage) (now : Nat)
  | hb (msg : WorkerRegistrationMessage) (now : Nat)
  | dereg (msg : WorkerRegistrationMessage) (now : Nat)
  | sweep (now : Nat)
deriving DecidableEq, Repr

/-- The instant at which an event is processed. -/
def DEvent.time : DEvent → Nat
  | .reg _ now => now
  | .hb _ now => now
  | .dereg _ now => now
  | .sweep now => now

/-- Effect of one event on the dispatcher state. -/
def dstep (st : DispatcherState) : DEvent → DispatcherState
  | .reg msg now => handleRegistration st msg now
  | .hb msg now => handleHeartbeat st msg now
  | .dereg msg _ => handleDeregistration st msg
  | .sweep now => cleanupInactiveWorkers st now

/-- Run a trace of events from a state. -/
def drun (st : DispatcherState) (evs : List DEvent) : DispatcherState :=
  evs.foldl dstep st

/-- Events that can (re)establish worker `w`'s presence: an accepted
registration or an accepted heartbeat carrying `worker_id = w`. -/
def refreshes (w : String) : DEvent → Bool
  | .reg msg _ => msg.workerID == w && msg.status == "registered"
  | .hb msg _ => msg.workerID == w && msg.status == "heartbeat"
  | _ => false

/-- Structural invariant of every reachable dispatcher state: both maps have
duplicate-free keys, every registry key has a heartbeat entry, and every
registry value's `uuid` equals its key. -/
def DInv (st : DispatcherState) : Prop :=
  NodupKeys st.workers ∧ NodupKeys st.lastHeartbeat ∧
  (∀ k, (alookup k st.workers).isSome → (alookup k st.lastHeartbeat).isSome) ∧
  (∀ p ∈ st.workers, p.2.uuid = p.1)

/-! ## Liveness convergence machinery -/

/-- Worker `w`'s recorded heartbeat instant (if any) is at most `T`. -/
def hbBoundedBy (w : String) (T : Nat) (st : DispatcherState) : Prop :=
  ∀ t, alookup w st.lastHeartbeat = some t → t ≤ T

/-- Worker `w` appears in neither map. -/
def absentFrom (w : String) (st : DispatcherState) : Prop :=
  alookup w st.workers = none ∧ alookup w st.lastHeartbeat = none

/-! ## Worker agent (`worker` main package)

The worker's local `Job` struct re-declares the job wire format but carries
only nine fields: it has no `cycle_uuid` and no `session_id`, although its
comment claims it is "the same as dispatcher".  JSON decode into it therefore
drops those keys, and decoding its published result back into `models.Job`
leaves them at the zero value `""`. -/

/-- Embedding of the worker-side `Job` struct (fields in source order). -/
structure WorkerAgentJob where
  uuid : String
  workerID : String
  name : String
  inputData : String
  outputData : String
  error : String
  startAt : Int
  doneAt : Int
  status : String
deriving DecidableEq, Repr

/-- `json.Unmarshal` of a serialized `models.Job` into the worker's `Job`:
shared keys are copied, `cycle_uuid` and `session_id` have no target field. -/
def workerDecodeJob (j : Job) : WorkerAgentJob :=
  ⟨j.uuid, j.workerID, j.name, j.inputData, j.outputData, j.error,
    j.startAt, j.doneAt, j.status⟩

/-- Embedding of the processing block of `handleJobs`: `start_at = now₁`,
then the placeholder handler (the transient `status = "processing"` is
overwritten in the same block), `output_data`, `status = "completed"`,
`done_at = now₂`. -/
def workerProcessJob (j : WorkerAgentJob) (now1 now2 : Int) : WorkerAgentJob :=
  { j with
      startAt := now1,
      outputData := "\x7b\"result\":\"processed\"\x7d",
      status := "completed",
      doneAt := now2 }

/-- `json.Unmarshal` of the worker's published result into `models.Job`
(as done by the JobService result consumer): shared keys are copied,
`cycle_uuid` and `session_id` are absent from the payload and decode to `""`. -/
def resultDecodeJob (j : WorkerAgentJob) : Job :=
  ⟨j.uuid, j.workerID, j.name, j.inputData, j.outputData, j.error,
    j.startAt, j.doneAt, j.status, "", ""⟩

/-- The full path of one job through the worker: the dispatched `models.Job`
is decoded by the worker, processed, published on `dispatcher.job.result`,
and decoded back into a `models.Job`. -/
def workerRoundTrip (j : Job) (now1 now2 : Int) : Job :=
  resultDecodeJob (workerProcessJob (workerDecodeJob j) now1 now2)

/-! ## JobService cycle orchestration (`job/service.go`, `models`) -/

/-- Embedding of `models.User` (string fields in source order). -/
structure User where
  uuid : String
  displayName : String
  userName : String
  language : String
  cycleID : String
  sessionID : String
deriving DecidableEq, Repr

/-- Embedding of `models.Session`. -/
structure Session where
  userID : String
deriving DecidableEq, Repr

/-- Embedding of `models.Strategy` (Go ints used as loop bounds). -/
structure Strategy where
  cycleDuration : Nat
  maxUsers : Nat
  maxFiles : Nat
  maxWorkspaces : Nat
deriving DecidableEq, Repr

/-- Embedding of `models.Cycle` (the strategy pointer taken by value). -/
structure Cycle where
  uuid : String
  name : String
  strategy : Strategy
  startedAt : Int
  doneAt : Int
  status : String
deriving DecidableEq, Repr

/-- The ordered action set of `generateSessionJobs`. -/
def actions : List String :=
  ["create_user", "update_user", "delete_user",
    "create_workspace", "update_workspace", "delete_workspace",
    "upload_file", "download_file", "consult_file"]

/-- `actions[i%len(actions)]`. -/
def actionAt (i : Nat) : String :=
  actions.get ⟨i % actions.length, Nat.mod_lt i (by decide)⟩

/-- `json.Marshal(map[string]string{"user_id": ..., "action": ...})`:
Go serializes map keys in sorted order, so `action` precedes `user_id`. -/
def inputJSON (userId action : String) : String :=
  "\x7b\"action\":\"" ++ action ++ "\",\"user_id\":\"" ++ userId ++ "\"\x7d"

/-- Embedding of `generateSessionJobs`: `maxFiles + maxWorkspaces` jobs, the
i-th named `actions[i%9]`, with the `{user_id, action}` input blob, status
`pending` and a fresh uuid (`uuid.New()` resolved by `supply`). -/
def generateSessionJobs (strategy : Strategy) (session : Session)
    (supply : Nat → String) : List Job :=
  (List.range (strategy.maxFiles + strategy.maxWorkspaces)).map (fun i =>
    { Job.zero with
        uuid := supply i,
        name := actionAt i,
        inputData := inputJSON session.userID (actionAt i),
        status := "pending" })

/-- The jobs persisted for the `k`-th drained user (the body of the per-user
loop in `StartCycle`): the session jobs with `cycle_uuid` and `session_id`
stamped before `CreateJob`.  Fresh uuids for the `k`-th session are the
supply at flat indices `k·per + i`. -/
def sessionJobsFor (strategy : Strategy) (cuuid : String) (supply : Nat → String)
    (per : Nat) (ku : Nat × User) : List Job :=
  (generateSessionJobs strategy ⟨ku.2.userName⟩
      (fun i => supply (ku.1 * per + i))).map
    (fun j => { j with cycleUUID := cuuid, sessionID := ku.2.userName })

/-- Embedding of `StartCycle`: stamp the template with a fresh uuid
(`cuuid`), `started_at = now`, `status = "running"`; drain up to
`maxUsers` users from the generator stream (on a closed channel the
select-break yields exactly `stream.take maxUsers`); then persist the
per-session jobs in order.  Returns the created cycle row and the persisted
jobs. -/
def startCycle (template : Cycle) (stream : List User) (cuuid : String)
    (supply : Nat → String) (now : Int) : Cycle × List Job :=
  let cycle := { template with uuid := cuuid, startedAt := now, status := "running" }
  let per := template.strategy.maxFiles + template.strategy.maxWorkspaces
  let users := stream.take template.strategy.maxUsers
  (cycle, users.enum.flatMap (sessionJobsFor template.strategy cuuid supply per))

/-! ## Store state machine (`store` package + JobService loops)

The store is a keyed CRUD surface (gorm): `Create` fails on an existing
primary key, `Save` upserts, `GetJobsByStatus` filters.  Its reachable states
are those produced by the JobService code paths: `StartCycle` (create the
cycle row and its pending jobs), one successful dispatch of a pending job
(stamp `worker_id`, set `dispatched`), and one arrival on
`dispatcher.job.result` (upsert the job row, then `checkCycleCompletion`). -/

structure StoreState where
  cycles : List (String × Cycle)
  jobs : List (String × Job)

/-- The store before any cycle is started. -/
def storeInit : StoreState := ⟨[], []⟩

/-- `CreateJob` inside `StartCycle`: gorm `Create` errors on a duplicate key
and the loop then skips the row (`continue`). -/
def createJobRow (m : List (String × Job)) (j : Job) : List (String × Job) :=
  match alookup j.uuid m with
  | some _ => m
  | none => ainsert j.uuid j m

/-- Effect of one `StartCycle` call on the store.  If `CreateCycle` fails
(duplicate uuid) the call returns early and persists nothing. -/
def stepStart (s : StoreState) (template : Cycle) (stream : List User)
    (cuuid : String) (supply : Nat → String) (now : Int) : StoreState :=
  match alookup (startCycle template stream cuuid supply now).1.uuid s.cycles with
  | some _ => s
  | none =>
    { cycles := ainsert (startCycle template stream cuuid supply now).1.uuid
        (startCycle template stream cuuid supply now).1 s.cycles,
      jobs := (startCycle template stream cuuid supply now).2.foldl createJobRow s.jobs }

/-- Effect of one successful dispatch iteration of `ProcessJobs` on job
`juuid`: the job was fetched with status `pending`, `DispatchJob` stamped
`worker_id = wid`, and `UpdateJob` saved it with status `dispatched`. -/
def stepDispatch (s : StoreState) (juuid wid : String) : StoreState :=
  match alookup juuid s.jobs with
  | some j =>
    if j.status = "pending" then
      { s with jobs := ainsert juuid { j with workerID := wid, status := "dispatched" } s.jobs }
    else s
  | none => s

/-- Embedding of `checkCycleCompletion`: count the jobs with status `pending`
and `dispatched` globally (the source does not scope the query to the cycle);
when zero, load the cycle, set `status = "completed"` and `done_at = now`,
and save it.  A failing `GetCycle` (unknown uuid) aborts without writing. -/
def checkCycleCompletion (s : StoreState) (cycleUUID : String) (now : Int) :
    StoreState :=
  if (s.jobs.filter (fun p => p.2.status == "pending")).length +
      (s.jobs.filter (fun p => p.2.status == "dispatched")).length = 0 then
    match alookup cycleUUID s.cycles with
    | some c =>
      let c1 := { c with status := "completed", doneAt := now }
      { s with cycles := ainsert cycleUUID c1 s.cycles }
    | none => s
  else s

/-- Effect of one result arrival: `UpdateJob` (gorm `Save`, an upsert) of the
decoded job, then `checkCycleCompletion job.cycle_uuid`. -/
def stepResult (s : StoreState) (j : Job) (now : Int) : StoreState :=
  checkCycleCompletion { s with jobs := ainsert j.uuid j s.jobs } j.cycleUUID now

/-- One store-mutating event of the job service. -/
inductive SEvent where
  | start (template : Cycle) (stream : List User) (cuuid : String)
      (supply : Nat → String) (now : Int)
  | dispatch (juuid wid : String)
  | result (j : Job) (now : Int)

def sstep (s : StoreState) : SEvent → StoreState
  | .start template stream cuuid supply now => stepStart s template stream cuuid supply now
  | .dispatch juuid wid => stepDispatch s juuid wid
  | .result j now => stepResult s j now

/-- Environment facts under which the events fire in the running system:
a cycle template passed to `StartCycle` is a fresh template whose `done_at`
is the zero value (the caller constructs it; `models.Cycle`'s `done_at` is
unset before completion); every payload on `dispatcher.job.result` was built
by the worker agent, which always publishes `status = "completed"`; and
`time.Now().Unix()` is positive. -/
def OkEvent : SEvent → Prop
  | .start template _ _ _ _ => template.doneAt = 0
  | .dispatch _ _ => True
  | .result j now => j.status = "completed" ∧ 0 < now

/-- Store states reachable by the job service from the empty store. -/
inductive ReachableStore : StoreState → Prop
  | init : ReachableStore storeInit
  | step (s : StoreState) (e : SEvent) : ReachableStore s → OkEvent e →
      ReachableStore (sstep s e)

/-- Internal invariant: cycle rows are keyed by their uuid and satisfy the
done-at/status biconditional; no job row ever has status `processing`
(the worker's transient `processing` value is never published). -/
def SInv (s : StoreState) : Prop :=
  (∀ k c, alookup k s.cycles = some c →
    c.uuid = k ∧ (c.doneAt ≠ 0 ↔ c.status = "completed")) ∧
  (∀ k j, alookup k s.jobs = some j → j.status ≠ "processing")

/-! ## Theorems -/

theorem alookup_cons (a k : String) (v : α) (m : List (String × α)) :
    alookup k ((a, v) :: m) = if a = k then some v else alookup k m := rfl

theorem aerase_cons (a k : String) (v : α) (m : List (String × α)) :
    aerase k ((a, v) :: m) = if a = k then aerase k m else (a, v) :: aerase k m := rfl

theorem alookup_aerase_self (k : String) (m : List (String × α)) :
    alookup k (aerase k m) = none := by
  induction m with
  | nil => rfl
  | cons p m ih =>
    obtain ⟨a, v⟩ := p
    by_cases h : a = k <;> simp [aerase_cons, alookup_cons, h, ih]

theorem alookup_aerase_ne (k k' : String) (m : List (String × α)) (h : k' ≠ k) :
    alookup k' (aerase k m) = alookup k' m := by
  induction m with
  | nil => rfl
  | cons p m ih =>
    obtain ⟨a, v⟩ := p
    by_cases ha : a = k
    · subst ha
      have hak : a ≠ k' := fun hc => h hc.symm
      simp [aerase_cons, alookup_cons, hak, ih]
    · by_cases ha' : a = k'
      · subst ha'
        simp [aerase_cons, alookup_cons, ha, ih]
      · simp [aerase_cons, alookup_cons, ha, ha', ih]

theorem alookup_ainsert_self (k : String) (v : α) (m : List (String × α)) :
    alookup k (ainsert k v m) = some v := by
  simp [ainsert, alookup_cons]

theorem alookup_ainsert_ne (k k' : String) (v : α) (m : List (String × α)) (h : k' ≠ k) :
    alookup k' (ainsert k v m) = alookup k' m := by
  have hk : k ≠ k' := fun hc => h hc.symm
  simp [ainsert, alookup_cons, hk]
  exact alookup_aerase_ne k k' m h

theorem alookup_mem {k : String} {v : α} {m : List (String × α)}
    (h : alookup k m = some v) : (k, v) ∈ m := by
  induction m with
  | nil => simp [alookup] at h
  | cons p m ih =>
    obtain ⟨a, w⟩ := p
    by_cases ha : a = k
    · subst ha
      simp [alookup] at h
      simp [h]
    · simp [alookup, ha] at h
      exact List.mem_cons_of_mem _ (ih h)

theorem alookup_isSome_of_mem {k : String} {v : α} {m : List (String × α)}
    (h : (k, v) ∈ m) : (alookup k m).isSome := by
  induction m with
  | nil => simp at h
  | cons p m ih =>
    obtain ⟨a, w⟩ := p
    rcases List.mem_cons.mp h with h1 | h1
    · obtain ⟨rfl, rfl⟩ := Prod.mk.injEq .. ▸ h1
      simp [alookup]
    · by_cases ha : a = k <;> simp [alookup, ha, ih h1]

theorem alookup_eq_none_of_not_mem_akeys {k : String} {m : List (String × α)}
    (h : k ∉ akeys m) : alookup k m = none := by
  induction m with
  | nil => rfl
  | cons p m ih =>
    obtain ⟨a, w⟩ := p
    simp [akeys] at h
    have hak : a ≠ k := fun hc => h.1 hc.symm
    have hm : k ∉ akeys m := by simpa [akeys] using h.2
    simp [alookup_cons, hak, ih hm]

theorem mem_akeys_of_alookup_isSome {k : String} {m : List (String × α)}
    (h : (alookup k m).isSome) : k ∈ akeys m := by
  by_contra hc
  rw [alookup_eq_none_of_not_mem_akeys hc] at h
  simp at h

theorem alookup_of_mem_nodup {k : String} {v : α} {m : List (String × α)}
    (hnd : NodupKeys m) (h : (k, v) ∈ m) : alookup k m = some v := by
  induction m with
  | nil => simp at h
  | cons p m ih =>
    obtain ⟨a, w⟩ := p
    have hnd' : NodupKeys m := (List.nodup_cons.mp hnd).2
    rcases List.mem_cons.mp h with h1 | h1
    · obtain ⟨rfl, rfl⟩ := Prod.mk.injEq .. ▸ h1
      simp [alookup]
    · by_cases ha : a = k
      · subst ha
        exfalso
        exact (List.nodup_cons.mp hnd).1 (List.mem_map.mpr ⟨(a, v), h1, rfl⟩)
      · simpa [alookup, ha] using ih hnd' h1

theorem alookup_filter_none {k : String} {m : List (String × α)}
    {p : String × α → Bool} (h : alookup k m = none) :
    alookup k (m.filter p) = none := by
  induction m with
  | nil => rfl
  | cons q m ih =>
    obtain ⟨a, w⟩ := q
    by_cases ha : a = k
    · simp [alookup, ha] at h
    · simp only [alookup, if_neg ha] at h
      cases hp : p (a, w) <;> simp [List.filter, hp, alookup, ha, ih h]

theorem alookup_filter_of_true {k : String} {v : α} {m : List (String × α)}
    {p : String × α → Bool} (h : alookup k m = some v) (hp : p (k, v) = true) :
    alookup k (m.filter p) = some v := by
  induction m with
  | nil => simp [alookup] at h
  | cons q m ih =>
    obtain ⟨a, w⟩ := q
    by_cases ha : a = k
    · subst ha
      simp only [alookup, if_pos rfl] at h
      obtain rfl : w = v := by injection h
      simp [List.filter, hp, alookup]
    · simp only [alookup, if_neg ha] at h
      cases hq : p (a, w) <;> simp [List.filter, hq, alookup, ha, ih h]

theorem alookup_filter_of_false {k : String} {v : α} {m : List (String × α)}
    {p : String × α → Bool} (hnd : NodupKeys m) (h : alookup k m = some v)
    (hp : p (k, v) = false) : alookup k (m.filter p) = none := by
  induction m with
  | nil => simp [alookup] at h
  | cons q m ih =>
    obtain ⟨a, w⟩ := q
    have hnd' : NodupKeys m := (List.nodup_cons.mp hnd).2
    by_cases ha : a = k
    · subst ha
      simp only [alookup, if_pos rfl] at h
      obtain rfl : w = v := by injection h
      have hnone : alookup a m = none :=
        alookup_eq_none_of_not_mem_akeys (List.nodup_cons.mp hnd).1
      simp [List.filter, hp, alookup_filter_none hnone]
    · simp only [alookup, if_neg ha] at h
      cases hq : p (a, w) <;> simp [List.filter, hq, alookup, ha, ih hnd' h]

theorem alookup_filter_some {k : String} {v : α} {m : List (String × α)}
    {p : String × α → Bool} (hnd : NodupKeys m)
    (h : alookup k (m.filter p) = some v) : alookup k m = some v := by
  have hm : (k, v) ∈ m := List.mem_of_mem_filter (alookup_mem h)
  exact alookup_of_mem_nodup hnd hm

theorem mem_akeys_aerase {a k : String} {m : List (String × α)}
    (h : a ∈ akeys (aerase k m)) : a ∈ akeys m := by
  induction m with
  | nil => simpa [aerase] using h
  | cons p m ih =>
    obtain ⟨b, w⟩ := p
    by_cases hb : b = k
    · simp only [aerase, if_pos hb] at h
      exact List.mem_cons_of_mem _ (ih h)
    · simp only [aerase, if_neg hb, akeys, List.map_cons] at h
      rcases List.mem_cons.mp h with h1 | h1
      · simp [akeys, h1]
      · exact List.mem_cons_of_mem _ (ih h1)

theorem nodupKeys_aerase (k : String) {m : List (String × α)}
    (hnd : NodupKeys m) : NodupKeys (aerase k m) := by
  induction m with
  | nil => simpa [aerase] using hnd
  | cons p m ih =>
    obtain ⟨b, w⟩ := p
    have hnd' : NodupKeys m := (List.nodup_cons.mp hnd).2
    by_cases hb : b = k
    · simpa [aerase, hb] using ih hnd'
    · simp only [aerase, if_neg hb]
      refine List.nodup_cons.mpr ⟨fun hc => ?_, ih hnd'⟩
      exact (List.nodup_cons.mp hnd).1 (mem_akeys_aerase hc)

theorem nodupKeys_ainsert (k : String) (v : α) {m : List (String × α)}
    (hnd : NodupKeys m) : NodupKeys (ainsert k v m) := by
  refine List.nodup_cons.mpr ⟨fun hc => ?_, nodupKeys_aerase k hnd⟩
  obtain ⟨⟨a, w⟩, hmem, ha⟩ := List.mem_map.mp hc
  simp only at ha
  subst ha
  have hs : (alookup a (aerase a m)).isSome := alookup_isSome_of_mem hmem
  rw [alookup_aerase_self] at hs
  simp at hs

theorem nodupKeys_filter (p : String × α → Bool) {m : List (String × α)}
    (hnd : NodupKeys m) : NodupKeys (m.filter p) := by
  have hsub : (akeys (m.filter p)).Sublist (akeys m) :=
    List.Sublist.map Prod.fst (List.filter_sublist m)
  exact hnd.sublist hsub

/-! ## Dispatcher state invariants -/

theorem mem_of_mem_aerase {p : String × α} {k : String} {m : List (String × α)}
    (h : p ∈ aerase k m) : p ∈ m := by
  induction m with
  | nil => simp [aerase] at h
  | cons q m ih =>
    obtain ⟨a, w⟩ := q
    by_cases ha : a = k
    · simp only [aerase_cons, if_pos ha] at h
      exact List.mem_cons_of_mem _ (ih h)
    · simp only [aerase_cons, if_neg ha] at h
      rcases List.mem_cons.mp h with h1 | h1
      · simp [h1]
      · exact List.mem_cons_of_mem _ (ih h1)

theorem dInit_inv : DInv dInit := by
  refine ⟨List.nodup_nil, List.nodup_nil, fun k h => ?_, fun p hp => ?_⟩
  · simp [dInit, alookup] at h
  · simp [dInit] at hp

theorem dstep_inv {st : DispatcherState} (hinv : DInv st) (e : DEvent) :
    DInv (dstep st e) := by
  obtain ⟨hnw, hnh, hsub, hcoh⟩ := hinv
  cases e with
  | reg msg now =>
    by_cases hs : msg.status = "registered"
    · rw [show dstep st (DEvent.reg msg now) =
          ⟨ainsert msg.workerID ⟨msg.workerID, msg.name⟩ st.workers,
            ainsert msg.workerID now st.lastHeartbeat⟩ from by
        simp [dstep, handleRegistration, hs]]
      refine ⟨nodupKeys_ainsert _ _ hnw, nodupKeys_ainsert _ _ hnh, fun k hk => ?_,
        fun p hp => ?_⟩
      · by_cases hkid : k = msg.workerID
        · subst hkid
          simp [alookup_ainsert_self]
        · simp only at hk ⊢
          rw [alookup_ainsert_ne _ _ _ _ hkid] at hk
          rw [alookup_ainsert_ne _ _ _ _ hkid]
          exact hsub k hk
      · simp only [ainsert] at hp
        rcases List.mem_cons.mp hp with h1 | h1
        · simp [h1]
        · exact hcoh p (mem_of_mem_aerase h1)
    · simpa [dstep, handleRegistration, hs] using ⟨hnw, hnh, hsub, hcoh⟩
  | hb msg now =>
    by_cases hs : msg.status = "heartbeat"
    · rw [show dstep st (DEvent.hb msg now) =
          ⟨st.workers, ainsert msg.workerID now st.lastHeartbeat⟩ from by
        simp [dstep, handleHeartbeat, hs]]
      refine ⟨hnw, nodupKeys_ainsert _ _ hnh, fun k hk => ?_, fun p hp => ?_⟩
      · by_cases hkid : k = msg.workerID
        · subst hkid
          simp [alookup_ainsert_self]
        · simp only at hk ⊢
          rw [alookup_ainsert_ne _ _ _ _ hkid]
          exact hsub k hk
      · exact hcoh p hp
    · simpa [dstep, handleHeartbeat, hs] using ⟨hnw, hnh, hsub, hcoh⟩
  | dereg msg now =>
    by_cases hs : msg.status = "deregistered"
    · rw [show dstep st (DEvent.dereg msg now) =
          ⟨aerase msg.workerID st.workers, aerase msg.workerID st.lastHeartbeat⟩ from by
        simp [dstep, handleDeregistration, hs]]
      refine ⟨nodupKeys_aerase _ hnw, nodupKeys_aerase _ hnh, fun k hk => ?_,
        fun p hp => ?_⟩
      · simp only at hk ⊢
        by_cases hkid : k = msg.workerID
        · subst hkid
          rw [alookup_aerase_self] at hk
          simp at hk
        · rw [alookup_aerase_ne _ _ _ hkid] at hk
          rw [alookup_aerase_ne _ _ _ hkid]
          exact hsub k hk
      · exact hcoh p (mem_of_mem_aerase hp)
    · simpa [dstep, handleDeregistration, hs] using ⟨hnw, hnh, hsub, hcoh⟩
  | sweep now =>
    rw [show dstep st (DEvent.sweep now) =
        ⟨st.workers.filter (fun p =>
            match alookup p.1 st.lastHeartbeat with
            | some t => !staleAt now t
            | none => true),
          st.lastHeartbeat.filter (fun p => !staleAt now p.2)⟩ from by
      simp [dstep, cleanupInactiveWorkers]]
    refine ⟨nodupKeys_filter _ hnw, nodupKeys_filter _ hnh, fun k hk => ?_,
      fun p hp => ?_⟩
    · simp only at hk ⊢
      obtain ⟨wv, hwv⟩ := Option.isSome_iff_exists.mp hk
      have hmemf := alookup_mem hwv
      obtain ⟨hmemw, hpred⟩ := List.mem_filter.mp hmemf
      have hworig : alookup k st.workers = some wv := alookup_of_mem_nodup hnw hmemw
      cases hhb : alookup k st.lastHeartbeat with
      | none =>
        have hcontra : (alookup k st.lastHeartbeat).isSome := hsub k (by simp [hworig])
        rw [hhb] at hcontra
        simp at hcontra
      | some t =>
        simp only [hhb] at hpred
        rw [alookup_filter_of_true hhb (by simpa using hpred)]
        simp
    · exact hcoh p (List.mem_of_mem_filter hp)

theorem drun_inv {st : DispatcherState} (hinv : DInv st) (evs : List DEvent) :
    DInv (drun st evs) := by
  induction evs generalizing st with
  | nil => simpa [drun] using hinv
  | cons e evs ih =>
    have h1 : DInv (dstep st e) := dstep_inv hinv e
    simpa [drun] using ih h1

theorem hbBounded_step {w : String} {T : Nat} {st : DispatcherState}
    (hinv : DInv st) (hB : hbBoundedBy w T st) (e : DEvent)
    (he : refreshes w e = true → e.time ≤ T) :
    hbBoundedBy w T (dstep st e) := by
  obtain ⟨hnw, hnh, hsub, hcoh⟩ := hinv
  cases e with
  | reg msg now =>
    by_cases hs : msg.status = "registered"
    · intro t ht
      simp only [dstep, handleRegistration, if_pos hs] at ht
      by_cases hkid : w = msg.workerID
      · subst hkid
        rw [alookup_ainsert_self] at ht
        obtain rfl : now = t := by injection ht
        exact he (by simp [refreshes, hs])
      · rw [alookup_ainsert_ne _ _ _ _ hkid] at ht
        exact hB t ht
    · intro t ht
      simp only [dstep, handleRegistration, if_neg hs] at ht
      exact hB t ht
  | hb msg now =>
    by_cases hs : msg.status = "heartbeat"
    · intro t ht
      simp only [dstep, handleHeartbeat, if_pos hs] at ht
      by_cases hkid : w = msg.workerID
      · subst hkid
        rw [alookup_ainsert_self] at ht
        obtain rfl : now = t := by injection ht
        exact he (by simp [refreshes, hs])
      · rw [alookup_ainsert_ne _ _ _ _ hkid] at ht
        exact hB t ht
    · intro t ht
      simp only [dstep, handleHeartbeat, if_neg hs] at ht
      exact hB t ht
  | dereg msg now =>
    by_cases hs : msg.status = "deregistered"
    · intro t ht
      simp only [dstep, handleDeregistration, if_pos hs] at ht
      by_cases hkid : w = msg.workerID
      · subst hkid
        rw [alookup_aerase_self] at ht
        exact absurd ht (by simp)
      · rw [alookup_aerase_ne _ _ _ hkid] at ht
        exact hB t ht
    · intro t ht
      simp only [dstep, handleDeregistration, if_neg hs] at ht
      exact hB t ht
  | sweep now =>
    intro t ht
    simp only [dstep, cleanupInactiveWorkers] at ht
    exact hB t (alookup_filter_some hnh ht)

theorem absent_sweep {w : String} {T s : Nat} {st : DispatcherState}
    (hinv : DInv st) (hB : hbBoundedBy w T st) (hs : T + 15 < s) :
    absentFrom w (dstep st (DEvent.sweep s)) := by
  obtain ⟨hnw, hnh, hsub, hcoh⟩ := hinv
  constructor
  · simp only [dstep, cleanupInactiveWorkers]
    cases hw : alookup w st.workers with
    | none => exact alookup_filter_none hw
    | some wk =>
      cases hhb : alookup w st.lastHeartbeat with
      | none =>
        have hcontra : (alookup w st.lastHeartbeat).isSome := hsub w (by simp [hw])
        rw [hhb] at hcontra
        simp at hcontra
      | some t =>
        have htT : t ≤ T := hB t hhb
        refine alookup_filter_of_false hnw hw ?_
        simp only [hhb]
        simp [staleAt]
        omega
  · simp only [dstep, cleanupInactiveWorkers]
    cases hhb : alookup w st.lastHeartbeat with
    | none => exact alookup_filter_none hhb
    | some t =>
      have htT : t ≤ T := hB t hhb
      refine alookup_filter_of_false hnh hhb ?_
      simp [staleAt]
      omega

theorem absent_step {w : String} {st : DispatcherState}
    (hA : absentFrom w st) (e : DEvent) (he : refreshes w e = false) :
    absentFrom w (dstep st e) := by
  obtain ⟨hAw, hAh⟩ := hA
  cases e with
  | reg msg now =>
    by_cases hs : msg.status = "registered"
    · have hkid : w ≠ msg.workerID := by
        intro hc
        simp [refreshes, hs, hc] at he
      constructor
      · simp only [dstep, handleRegistration, if_pos hs]
        rw [alookup_ainsert_ne _ _ _ _ hkid]
        exact hAw
      · simp only [dstep, handleRegistration, if_pos hs]
        rw [alookup_ainsert_ne _ _ _ _ hkid]
        exact hAh
    · simpa [dstep, handleRegistration, hs] using ⟨hAw, hAh⟩
  | hb msg now =>
    by_cases hs : msg.status = "heartbeat"
    · have hkid : w ≠ msg.workerID := by
        intro hc
        simp [refreshes, hs, hc] at he
      constructor
      · simp [dstep, handleHeartbeat, hs, hAw]
      · simp only [dstep, handleHeartbeat, if_pos hs]
        rw [alookup_ainsert_ne _ _ _ _ hkid]
        exact hAh
    · simpa [dstep, handleHeartbeat, hs] using ⟨hAw, hAh⟩
  | dereg msg now =>
    by_cases hs : msg.status = "deregistered"
    · constructor
      · simp only [dstep, handleDeregistration, if_pos hs]
        by_cases hkid : w = msg.workerID
        · subst hkid
          exact alookup_aerase_self _ _
        · rw [alookup_aerase_ne _ _ _ hkid]
          exact hAw
      · simp only [dstep, handleDeregistration, if_pos hs]
        by_cases hkid : w = msg.workerID
        · subst hkid
          exact alookup_aerase_self _ _
        · rw [alookup_aerase_ne _ _ _ hkid]
          exact hAh
    · simpa [dstep, handleDeregistration, hs] using ⟨hAw, hAh⟩
  | sweep now =>
    exact ⟨alookup_filter_none hAw, alookup_filter_none hAh⟩

theorem absent_run {w : String} {st : DispatcherState} {evs : List DEvent}
    (hA : absentFrom w st) (hevs : ∀ e ∈ evs, refreshes w e = false) :
    absentFrom w (drun st evs) := by
  induction evs generalizing st with
  | nil => simpa [drun] using hA
  | cons e evs ih =>
    have h1 := absent_step hA e (hevs e (List.mem_cons_self e evs))
    simpa [drun] using ih h1 (fun e1 he1 => hevs e1 (List.mem_cons_of_mem e he1))

theorem hbBounded_run {w : String} {T : Nat} {st : DispatcherState} {evs : List DEvent}
    (hinv : DInv st) (hB : hbBoundedBy w T st)
    (hevs : ∀ e ∈ evs, refreshes w e = true → e.time ≤ T) :
    hbBoundedBy w T (drun st evs) := by
  induction evs generalizing st with
  | nil => simpa [drun] using hB
  | cons e evs ih =>
    have h1 := hbBounded_step hinv hB e (hevs e (List.mem_cons_self e evs))
    simpa [drun] using
      ih (dstep_inv hinv e) h1 (fun e1 he1 => hevs e1 (List.mem_cons_of_mem e he1))

/-! ## Claims about `DispatchJob` (C1, C2, C9) -/

/-- C1: whenever the registry snapshot taken by `DispatchJob` is non-empty and
both the JSON serialization and the bus publish succeed, the call returns ok,
the job argument's `worker_id` is stamped with the uuid of a worker present in
that snapshot, and the job is published on `dispatcher.job.<that uuid>`. -/
theorem dispatchJob_nonempty_publishes (st : DispatcherState) (job : Job) (pick : Nat)
    (h : getActiveWorkers st ≠ []) :
    (dispatchJob st job pick true true).result = DispatchResult.ok ∧
    ∃ w ∈ getActiveWorkers st,
      (dispatchJob st job pick true true).job = { job with workerID := w.uuid } ∧
      (dispatchJob st job pick true true).published =
        [("dispatcher.job." ++ w.uuid, { job with workerID := w.uuid })] := by
  have hlen : (getActiveWorkers st).length ≠ 0 := fun hc => h (List.length_eq_zero.mp hc)
  have hout : dispatchJob st job pick true true =
      ⟨DispatchResult.ok,
        { job with workerID :=
            ((getActiveWorkers st).get
              ⟨pick % (getActiveWorkers st).length,
                Nat.mod_lt _ (Nat.pos_of_ne_zero hlen)⟩).uuid },
        [("dispatcher.job." ++
            ((getActiveWorkers st).get
              ⟨pick % (getActiveWorkers st).length,
                Nat.mod_lt _ (Nat.pos_of_ne_zero hlen)⟩).uuid,
          { job with workerID :=
              ((getActiveWorkers st).get
                ⟨pick % (getActiveWorkers st).length,
                  Nat.mod_lt _ (Nat.pos_of_ne_zero hlen)⟩).uuid })]⟩ := by
    simp [dispatchJob, hlen]
  rw [hout]
  exact ⟨rfl, _, List.get_mem _ _ _, rfl, rfl⟩

/-- Witness for C1 at a registry holding worker `w1`. -/
theorem dispatchJob_nonempty_publishes_witness :
    (dispatchJob ⟨[("w1", ⟨"w1", "W"⟩)], [("w1", 0)]⟩
      { Job.zero with uuid := "j1", name := "upload_file", status := "pending" }
      0 true true).result = DispatchResult.ok :=
  (dispatchJob_nonempty_publishes ⟨[("w1", ⟨"w1", "W"⟩)], [("w1", 0)]⟩
    { Job.zero with uuid := "j1", name := "upload_file", status := "pending" }
    0 (by decide)).1

/-- C2: a `DispatchJob` call whose registry snapshot is empty returns the
`no_workers` error, publishes nothing, and leaves the job argument untouched
(in particular `worker_id` is not stamped). -/
theorem dispatchJob_empty_noWorkers (st : DispatcherState) (job : Job) (pick : Nat)
    (marshalOk publishOk : Bool) (h : getActiveWorkers st = []) :
    (dispatchJob st job pick marshalOk publishOk).result = DispatchResult.noWorkers ∧
    (dispatchJob st job pick marshalOk publishOk).published = [] ∧
    (dispatchJob st job pick marshalOk publishOk).job = job := by
  refine ⟨?_, ?_, ?_⟩ <;> simp [dispatchJob, h]

/-- Witness for C2 at the initial (empty) dispatcher state. -/
theorem dispatchJob_empty_noWorkers_witness :
    (dispatchJob dInit { Job.zero with uuid := "j1" } 3 true true).result =
      DispatchResult.noWorkers :=
  (dispatchJob_empty_noWorkers dInit { Job.zero with uuid := "j1" } 3 true true
    (by decide)).1

/-- C9: when the snapshot is non-empty but the marshal or the publish fails,
`DispatchJob` reports an error, yet the passed job has already been mutated:
its `worker_id` carries the selected worker's uuid.  The call is not atomic
with respect to its job argument. -/
theorem dispatchJob_failure_mutates_job (st : DispatcherState) (job : Job)
    (pick : Nat) (marshalOk publishOk : Bool) (h : getActiveWorkers st ≠ [])
    (hfail : marshalOk = false ∨ publishOk = false) :
    (dispatchJob st job pick marshalOk publishOk).result ≠ DispatchResult.ok ∧
    ∃ w ∈ getActiveWorkers st,
      (dispatchJob st job pick marshalOk publishOk).job =
        { job with workerID := w.uuid } := by
  have hlen : (getActiveWorkers st).length ≠ 0 := fun hc => h (List.length_eq_zero.mp hc)
  have hget := List.get_mem (getActiveWorkers st)
    (pick % (getActiveWorkers st).length) (Nat.mod_lt _ (Nat.pos_of_ne_zero hlen))
  rcases hfail with rfl | rfl
  · have hout : dispatchJob st job pick false publishOk =
        ⟨DispatchResult.marshalErr,
          { job with workerID :=
              ((getActiveWorkers st).get
                ⟨pick % (getActiveWorkers st).length,
                  Nat.mod_lt _ (Nat.pos_of_ne_zero hlen)⟩).uuid }, []⟩ := by
      simp [dispatchJob, hlen]
    rw [hout]
    exact ⟨by simp, _, hget, rfl⟩
  · cases marshalOk with
    | false =>
      have hout : dispatchJob st job pick false false =
          ⟨DispatchResult.marshalErr,
            { job with workerID :=
                ((getActiveWorkers st).get
                  ⟨pick % (getActiveWorkers st).length,
                    Nat.mod_lt _ (Nat.pos_of_ne_zero hlen)⟩).uuid }, []⟩ := by
        simp [dispatchJob, hlen]
      rw [hout]
      exact ⟨by simp, _, hget, rfl⟩
    | true =>
      have hout : dispatchJob st job pick true false =
          ⟨DispatchResult.publishErr,
            { job with workerID :=
                ((getActiveWorkers st).get
                  ⟨pick % (getActiveWorkers st).length,
                    Nat.mod_lt _ (Nat.pos_of_ne_zero hlen)⟩).uuid }, []⟩ := by
        simp [dispatchJob, hlen]
      rw [hout]
      exact ⟨by simp, _, hget, rfl⟩

/-- Witness for C9: a failing publish still stamps `worker_id`. -/
theorem dispatchJob_failure_mutates_job_witness :
    (dispatchJob ⟨[("w1", ⟨"w1", "W"⟩)], [("w1", 0)]⟩ Job.zero 0 true false).result ≠
      DispatchResult.ok :=
  (dispatchJob_failure_mutates_job ⟨[("w1", ⟨"w1", "W"⟩)], [("w1", 0)]⟩ Job.zero 0
    true false (by decide) (Or.inr rfl)).1

/-! ## Claims about the membership handlers (C4, C8, C10) -/

/-- C4 counterexample: the claim says a heartbeat whose `worker_id` is absent
from the registry creates no entry in the heartbeat map; but
`handleHeartbeats` never consults the registry, so a heartbeat from the
unknown worker "ghost" does create a heartbeat-map entry. -/
theorem heartbeat_ghost_entry_counterexample :
    alookup "ghost" dInit.workers = none ∧
    alookup "ghost"
      (handleHeartbeat dInit ⟨"ghost", "G", [], "heartbeat"⟩ 7).lastHeartbeat =
      some 7 := by
  decide

/-- C4 amended: processing a heartbeat-status message sets
`last_hb[worker_id] = now` unconditionally — the registry is not consulted —
while the registry itself is left unchanged (so no registry entry is ever
created for an unknown worker). -/
theorem handleHeartbeat_unconditional_update (st : DispatcherState)
    (msg : WorkerRegistrationMessage) (now : Nat) (h : msg.status = "heartbeat") :
    (handleHeartbeat st msg now).workers = st.workers ∧
    alookup msg.workerID (handleHeartbeat st msg now).lastHeartbeat = some now := by
  simp [handleHeartbeat, h, alookup_ainsert_self]

/-- Witness for the amended C4 at the "ghost" heartbeat. -/
theorem handleHeartbeat_unconditional_update_witness :
    (handleHeartbeat dInit ⟨"ghost", "G", [], "heartbeat"⟩ 7).workers =
      dInit.workers ∧
    alookup "ghost"
      (handleHeartbeat dInit ⟨"ghost", "G", [], "heartbeat"⟩ 7).lastHeartbeat =
      some 7 :=
  handleHeartbeat_unconditional_update dInit ⟨"ghost", "G", [], "heartbeat"⟩ 7 rfl

/-- C8 counterexample: the claim says registration stores a Worker carrying the
message's capabilities; but `models.Worker` has no capabilities field and
`handleRegistrations` builds `Worker{Name, UUID}` only, so two registrations
differing only in capabilities produce identical dispatcher states. -/
theorem register_capabilities_dropped_counterexample :
    handleRegistration dInit ⟨"w1", "W", ["x"], "registered"⟩ 5 =
      handleRegistration dInit ⟨"w1", "W", [], "registered"⟩ 5 ∧
    (⟨"w1", "W", ["x"], "registered"⟩ : WorkerRegistrationMessage).capabilities ≠
      (⟨"w1", "W", [], "registered"⟩ : WorkerRegistrationMessage).capabilities := by
  decide

/-- C8 amended: processing a registered-status message inserts or overwrites
`registry[worker_id]` with a Worker carrying the message's `worker_id` and
`name` only (capabilities are logged but not stored), and resets
`last_hb[worker_id]` to now. -/
theorem handleRegistration_inserts_worker (st : DispatcherState)
    (msg : WorkerRegistrationMessage) (now : Nat) (h : msg.status = "registered") :
    alookup msg.workerID (handleRegistration st msg now).workers =
      some ⟨msg.workerID, msg.name⟩ ∧
    alookup msg.workerID (handleRegistration st msg now).lastHeartbeat = some now := by
  simp [handleRegistration, h, alookup_ainsert_self]

/-- Witness for the amended C8 at a concrete registration. -/
theorem handleRegistration_inserts_worker_witness :
    alookup "w1"
      (handleRegistration dInit ⟨"w1", "W", ["x"], "registered"⟩ 5).workers =
      some ⟨"w1", "W"⟩ ∧
    alookup "w1"
      (handleRegistration dInit ⟨"w1", "W", ["x"], "registered"⟩ 5).lastHeartbeat =
      some 5 :=
  handleRegistration_inserts_worker dInit ⟨"w1", "W", ["x"], "registered"⟩ 5 rfl

/-- C10: in every dispatcher state reachable by a trace of membership events
and sweeps from the initial state, the key set of the workers registry is
contained in the key set of the heartbeat map. -/
theorem registry_subset_heartbeat_keys (evs : List DEvent) (k : String)
    (h : (alookup k (drun dInit evs).workers).isSome) :
    (alookup k (drun dInit evs).lastHeartbeat).isSome :=
  (drun_inv dInit_inv evs).2.2.1 k h

/-- Witness for C10 after a single registration. -/
theorem registry_subset_heartbeat_keys_witness :
    (alookup "w1"
      (drun dInit [DEvent.reg ⟨"w1", "W", [], "registered"⟩ 3]).lastHeartbeat).isSome :=
  registry_subset_heartbeat_keys [DEvent.reg ⟨"w1", "W", [], "registered"⟩ 3] "w1"
    (by decide)

/-! ## Claim C3: liveness convergence -/

/-- C3: consider a chronologically ordered trace of dispatcher events in which
every registration or heartbeat for worker `w` happens at or before time `T`,
the sweeper (started at `phi ≤ T`) has fired at every scheduled instant
`phi + 10·m ≤ q`, and `q ≥ T + 25`.  Then a `GetActiveWorkers` snapshot taken
after the trace (at time `q`) contains no worker with uuid `w`: the sweeper
ticks every 10 s and evicts entries whose last heartbeat is more than 15 s
old, so one of the ticks in `(T+15, T+25]` removed `w` from both maps. -/
theorem worker_eviction_convergence (phi T q : Nat) (w : String) (evs : List DEvent)
    (hchron : evs.Pairwise (fun a b => a.time ≤ b.time))
    (hhb : ∀ e ∈ evs, refreshes w e = true → e.time ≤ T)
    (hphi : phi ≤ T)
    (hticks : ∀ m, 1 ≤ m → phi + 10 * m ≤ q → DEvent.sweep (phi + 10 * m) ∈ evs)
    (hq : T + 25 ≤ q) :
    ∀ wk ∈ getActiveWorkers (drun dInit evs), wk.uuid ≠ w := by
  obtain ⟨m, hm1, hm2, hm3⟩ :
      ∃ m, 1 ≤ m ∧ T + 15 < phi + 10 * m ∧ phi + 10 * m ≤ q :=
    ⟨(T + 16 - phi + 9) / 10, by omega, by omega, by omega⟩
  obtain ⟨l1, l2, hsplit⟩ := List.append_of_mem (hticks m hm1 hm3)
  subst hsplit
  have hsubl : (DEvent.sweep (phi + 10 * m) :: l2).Sublist
      (l1 ++ DEvent.sweep (phi + 10 * m) :: l2) := List.sublist_append_right _ _
  have hl2time : ∀ e ∈ l2, phi + 10 * m ≤ e.time := by
    have hp2 := hchron.sublist hsubl
    simpa [DEvent.time] using (List.pairwise_cons.mp hp2).1
  have hinv1 : DInv (drun dInit l1) := drun_inv dInit_inv l1
  have hB0 : hbBoundedBy w T dInit := by
    intro t ht
    simp [dInit, alookup] at ht
  have hB1 : hbBoundedBy w T (drun dInit l1) :=
    hbBounded_run dInit_inv hB0
      (fun e he => hhb e (List.mem_append.mpr (Or.inl he)))
  have habs1 : absentFrom w (dstep (drun dInit l1) (DEvent.sweep (phi + 10 * m))) :=
    absent_sweep hinv1 hB1 hm2
  have hnofresh : ∀ e ∈ l2, refreshes w e = false := by
    intro e he
    cases hr : refreshes w e with
    | false => rfl
    | true =>
      have h1 : e.time ≤ T :=
        hhb e (List.mem_append.mpr (Or.inr (List.mem_cons_of_mem _ he))) hr
      have h2 := hl2time e he
      omega
  have habs2 : absentFrom w
      (drun (dstep (drun dInit l1) (DEvent.sweep (phi + 10 * m))) l2) :=
    absent_run habs1 hnofresh
  have hfold : drun dInit (l1 ++ DEvent.sweep (phi + 10 * m) :: l2) =
      drun (dstep (drun dInit l1) (DEvent.sweep (phi + 10 * m))) l2 := by
    simp [drun, List.foldl_append]
  intro wk hwk huuid
  have hinvF := drun_inv dInit_inv (l1 ++ DEvent.sweep (phi + 10 * m) :: l2)
  obtain ⟨p, hpmem, hpsnd⟩ := List.mem_map.mp hwk
  have hkey : p.2.uuid = p.1 := hinvF.2.2.2 p hpmem
  have hpw : p.1 = w := by rw [← hkey, hpsnd, huuid]
  have hsome : (alookup w
      (drun dInit (l1 ++ DEvent.sweep (phi + 10 * m) :: l2)).workers).isSome := by
    refine alookup_isSome_of_mem (v := p.2) ?_
    rw [← hpw]
    exact hpmem
  rw [hfold, habs2.1] at hsome
  simp at hsome

/-- Witness for C3: worker `w1` registers at time 0 and then goes silent; after
the scheduled sweeps at times 10 and 20 the snapshot at `q = 25` has no worker
with uuid `w1`. -/
theorem worker_eviction_convergence_witness :
    (getActiveWorkers (drun dInit
      [DEvent.reg ⟨"w1", "W", [], "registered"⟩ 0,
        DEvent.sweep 10, DEvent.sweep 20])).all (fun wk => wk.uuid != "w1") = true := by
  rw [List.all_eq_true]
  intro wk hwk
  have hev := worker_eviction_convergence 0 0 25 "w1"
    [DEvent.reg ⟨"w1", "W", [], "registered"⟩ 0, DEvent.sweep 10, DEvent.sweep 20]
    (by decide) (by decide) (by decide)
    (by
      intro m h1 h2
      have hm2 : m ≤ 2 := by omega
      interval_cases m
      · decide
      · decide)
    (by decide)
  simpa using hev wk hwk

/-- C5 (code bug): the claim — and the worker file's own comment "same as
dispatcher" — require `cycle_uuid` and `session_id` to survive the round
trip, but the worker's `Job` struct lacks both fields, so the result decodes
with both reset to `""`.  Evaluated at a dispatched job with
`cycle_uuid = "c1"`, `session_id = "s1"`: the added fields are all set as the
claim says, yet both identifiers are lost. -/
theorem worker_roundtrip_drops_cycle_fields :
    (workerRoundTrip
      { Job.zero with
          uuid := "j1", workerID := "w1", name := "upload_file",
          inputData := "\x7b\"a\":1\x7d", status := "dispatched",
          cycleUUID := "c1", sessionID := "s1" } 5 9) =
      { Job.zero with
          uuid := "j1", workerID := "w1", name := "upload_file",
          inputData := "\x7b\"a\":1\x7d",
          outputData := "\x7b\"result\":\"processed\"\x7d",
          startAt := 5, doneAt := 9, status := "completed",
          cycleUUID := "", sessionID := "" } ∧
    ("c1" : String) ≠ "" := by
  exact ⟨rfl, by decide⟩

theorem length_flatMap_const {α β : Type _} {f : α → List β} {per : Nat} :
    ∀ {l : List α}, (∀ p ∈ l, (f p).length = per) →
      (l.flatMap f).length = l.length * per := by
  intro l
  induction l with
  | nil => intro _; simp
  | cons a l ih =>
    intro hf
    have ha : (f a).length = per := hf a (List.mem_cons_self a l)
    have hl := ih (fun p hp => hf p (List.mem_cons_of_mem a hp))
    simp only [List.flatMap_cons, List.length_append, ha, hl, List.length_cons]
    ring

theorem getElem?_flatMap_const {α β : Type _} {f : α → List β} {per : Nat} :
    ∀ {l : List α}, (∀ p ∈ l, (f p).length = per) →
      ∀ {k i : Nat}, k < l.length → i < per →
        (l.flatMap f)[k * per + i]? = l[k]?.bind (fun a => (f a)[i]?) := by
  intro l
  induction l with
  | nil => intro _ k i hk _; simp at hk
  | cons a l ih =>
    intro hf k i hk hi
    have ha : (f a).length = per := hf a (List.mem_cons_self a l)
    cases k with
    | zero =>
      rw [List.flatMap_cons]
      have hlt : 0 * per + i < (f a).length := by omega
      rw [List.getElem?_append_left hlt]
      simp only [Nat.zero_mul, Nat.zero_add, List.getElem?_cons_zero, Option.some_bind]
    | succ k =>
      rw [List.flatMap_cons]
      have hge : (f a).length ≤ (k + 1) * per + i := by
        rw [ha]
        have : per ≤ (k + 1) * per := Nat.le_mul_of_pos_left per (Nat.succ_pos k)
        omega
      rw [List.getElem?_append_right hge]
      have hidx : (k + 1) * per + i - (f a).length = k * per + i := by
        rw [ha]
        have : (k + 1) * per = k * per + per := by ring
        omega
      rw [hidx, List.getElem?_cons_succ]
      exact ih (fun p hp => hf p (List.mem_cons_of_mem a hp)) (Nat.lt_of_succ_lt_succ hk) hi

/-- C6: with a generator stream of at least `max_users` users and an
injective uuid supply, `StartCycle` persists exactly
`max_users × (max_files + max_workspaces)` jobs; the `i`-th job of the `k`-th
user's session (flat index `k·per + i`) carries name `actions[i mod 9]`, the
`{user_id, action}` input blob, status `pending`, the fresh uuid
`supply (k·per + i)`, the cycle uuid and the session id; and all persisted
uuids are pairwise distinct. -/
theorem startCycle_job_generation (template : Cycle) (stream : List User)
    (cuuid : String) (supply : Nat → String) (now : Int)
    (hlen : template.strategy.maxUsers ≤ stream.length)
    (hinj : Function.Injective supply) :
    (startCycle template stream cuuid supply now).2.length =
        template.strategy.maxUsers *
          (template.strategy.maxFiles + template.strategy.maxWorkspaces) ∧
    (∀ k i u, k < template.strategy.maxUsers →
      i < template.strategy.maxFiles + template.strategy.maxWorkspaces →
      stream[k]? = some u →
      (startCycle template stream cuuid supply now).2[k *
          (template.strategy.maxFiles + template.strategy.maxWorkspaces) + i]? =
        some { Job.zero with
            uuid := supply
              (k * (template.strategy.maxFiles + template.strategy.maxWorkspaces) + i),
            name := actionAt i,
            inputData := inputJSON u.userName (actionAt i),
            status := "pending",
            cycleUUID := cuuid,
            sessionID := u.userName }) ∧
    ((startCycle template stream cuuid supply now).2.map Job.uuid).Nodup := by
  set per := template.strategy.maxFiles + template.strategy.maxWorkspaces with hper
  set N := template.strategy.maxUsers with hN
  have hsplit : (startCycle template stream cuuid supply now).2 =
      (stream.take N).enum.flatMap (sessionJobsFor template.strategy cuuid supply per) :=
    rfl
  have htklen : (stream.take N).length = N := by
    simp [List.length_take]
    omega
  have hFlen : ∀ p ∈ (stream.take N).enum,
      (sessionJobsFor template.strategy cuuid supply per p).length = per := by
    intro p _
    simp [sessionJobsFor, generateSessionJobs, ← hper]
  have hlength : (startCycle template stream cuuid supply now).2.length = N * per := by
    rw [hsplit, length_flatMap_const hFlen, List.enum_length, htklen]
  have hget : ∀ k i u, k < N → i < per → stream[k]? = some u →
      (startCycle template stream cuuid supply now).2[k * per + i]? =
        some { Job.zero with
            uuid := supply (k * per + i),
            name := actionAt i,
            inputData := inputJSON u.userName (actionAt i),
            status := "pending",
            cycleUUID := cuuid,
            sessionID := u.userName } := by
    intro k i u hk hi hu
    have hk' : k < (stream.take N).enum.length := by
      rw [List.enum_length, htklen]
      exact hk
    rw [hsplit, getElem?_flatMap_const hFlen hk' hi]
    have htake : (stream.take N)[k]? = some u := by
      simp [List.getElem?_take, hk, hu]
    rw [List.getElem?_enum, htake]
    simp only [Option.map_some, Option.some_bind]
    simp [sessionJobsFor, generateSessionJobs, List.getElem?_map,
      List.getElem?_range, hi, ← hper]
  refine ⟨hlength, hget, ?_⟩
  by_cases hper0 : per = 0
  · have : (startCycle template stream cuuid supply now).2.length = 0 := by
      rw [hlength, hper0]
      ring
    rw [List.length_eq_zero.mp this]
    simp
  · have hperpos : 0 < per := Nat.pos_of_ne_zero hper0
    have huuidn : ∀ n, n < N * per →
        ((startCycle template stream cuuid supply now).2.map Job.uuid)[n]? =
          some (supply n) := by
      intro n hn
      have hkN : n / per < N := (Nat.div_lt_iff_lt_mul hperpos).mpr hn
      have hiper : n % per < per := Nat.mod_lt _ hperpos
      have hks : n / per < stream.length := lt_of_lt_of_le hkN hlen
      have hu : stream[n / per]? = some (stream.get ⟨n / per, hks⟩) :=
        List.getElem?_eq_getElem hks
      have hdec : n / per * per + n % per = n := by
        rw [Nat.mul_comm]
        exact Nat.div_add_mod n per
      have hj := hget (n / per) (n % per) (stream.get ⟨n / per, hks⟩) hkN hiper hu
      rw [hdec] at hj
      rw [List.getElem?_map, hj]
      rfl
    have hext : (startCycle template stream cuuid supply now).2.map Job.uuid =
        (List.range (N * per)).map supply := by
      apply List.ext_getElem?
      intro n
      by_cases hn : n < N * per
      · rw [huuidn n hn, List.getElem?_map, List.getElem?_range hn]
        rfl
      · have h1 : ((startCycle template stream cuuid supply now).2.map Job.uuid).length ≤ n := by
          simp [hlength]
          omega
        have h2 : ((List.range (N * per)).map supply).length ≤ n := by
          simp
          omega
        rw [List.getElem?_eq_none h1, List.getElem?_eq_none h2]
    rw [hext]
    exact List.Nodup.map hinj (List.nodup_range _)

/-- Witness for C6: one user, `max_files = max_workspaces = 1`, an injective
supply built from character repetition; two jobs are persisted. -/
theorem startCycle_job_generation_witness :
    (startCycle ⟨"", "cycle", ⟨0, 1, 1, 1⟩, 0, 0, ""⟩
      [⟨"", "Alice", "alice", "en", "", ""⟩] "c1"
      (fun n => String.mk (List.replicate n 'x')) 3).2.length = 1 * (1 + 1) :=
  (startCycle_job_generation ⟨"", "cycle", ⟨0, 1, 1, 1⟩, 0, 0, ""⟩
    [⟨"", "Alice", "alice", "en", "", ""⟩] "c1"
    (fun n => String.mk (List.replicate n 'x')) 3 (by decide)
    (fun a b h => by
      have h2 := congrArg (fun s => s.data.length) h
      simpa using h2)).1

theorem startCycle_jobs_pending (template : Cycle) (stream : List User)
    (cuuid : String) (supply : Nat → String) (now : Int) :
    ∀ j ∈ (startCycle template stream cuuid supply now).2, j.status = "pending" := by
  intro j hj
  simp only [startCycle] at hj
  rw [List.mem_flatMap] at hj
  obtain ⟨p, _, hjp⟩ := hj
  simp only [sessionJobsFor, generateSessionJobs, List.mem_map, List.mem_range] at hjp
  obtain ⟨q, ⟨i, _, rfl⟩, rfl⟩ := hjp
  rfl

theorem alookup_foldl_createJobRow {l : List Job} :
    ∀ {m : List (String × Job)} {k : String} {j : Job},
      alookup k (l.foldl createJobRow m) = some j → alookup k m = some j ∨ j ∈ l := by
  induction l with
  | nil => intro m k j h; exact Or.inl h
  | cons a l ih =>
    intro m k j h
    rcases ih h with h1 | h1
    · simp only [createJobRow] at h1
      cases ha : alookup a.uuid m with
      | some _ =>
        rw [ha] at h1
        exact Or.inl h1
      | none =>
        rw [ha] at h1
        by_cases hk : k = a.uuid
        · subst hk
          rw [alookup_ainsert_self] at h1
          obtain rfl : a = j := by injection h1
          exact Or.inr (List.mem_cons_self a l)
        · rw [alookup_ainsert_ne _ _ _ _ hk] at h1
          exact Or.inl h1
    · exact Or.inr (List.mem_cons_of_mem a h1)

theorem startCycle_fst_uuid (template : Cycle) (stream : List User)
    (cuuid : String) (supply : Nat → String) (now : Int) :
    (startCycle template stream cuuid supply now).1.uuid = cuuid := rfl

theorem startCycle_fst_status (template : Cycle) (stream : List User)
    (cuuid : String) (supply : Nat → String) (now : Int) :
    (startCycle template stream cuuid supply now).1.status = "running" := rfl

theorem startCycle_fst_doneAt (template : Cycle) (stream : List User)
    (cuuid : String) (supply : Nat → String) (now : Int) :
    (startCycle template stream cuuid supply now).1.doneAt = template.doneAt := rfl

theorem sinv_init : SInv storeInit := by
  constructor
  · intro k c h
    simp [storeInit, alookup] at h
  · intro k j h
    simp [storeInit, alookup] at h

theorem sinv_step {s : StoreState} (hs : SInv s) {e : SEvent} (he : OkEvent e) :
    SInv (sstep s e) := by
  obtain ⟨hc, hj⟩ := hs
  cases e with
  | start template stream cuuid supply now =>
    simp only [sstep, stepStart, startCycle_fst_uuid]
    cases hdup : alookup cuuid s.cycles with
    | some _ => exact ⟨hc, hj⟩
    | none =>
      constructor
      · intro k c hk
        simp only at hk
        by_cases hkq : k = cuuid
        · subst hkq
          rw [alookup_ainsert_self] at hk
          obtain rfl : (startCycle template stream k supply now).1 = c := by
            injection hk
          refine ⟨startCycle_fst_uuid .., ?_⟩
          rw [startCycle_fst_doneAt, startCycle_fst_status]
          have hdone : template.doneAt = 0 := he
          rw [hdone]
          simp
        · rw [alookup_ainsert_ne _ _ _ _ hkq] at hk
          exact hc k c hk
      · intro k j hk
        simp only at hk
        rcases alookup_foldl_createJobRow hk with h1 | h1
        · exact hj k j h1
        · rw [startCycle_jobs_pending template stream cuuid supply now j h1]
          simp
  | dispatch juuid wid =>
    simp only [sstep, stepDispatch]
    cases hget : alookup juuid s.jobs with
    | none => exact ⟨hc, hj⟩
    | some j0 =>
      dsimp only
      by_cases hp : j0.status = "pending"
      · rw [if_pos hp]
        refine ⟨hc, fun k j hk => ?_⟩
        simp only at hk
        by_cases hkq : k = juuid
        · subst hkq
          rw [alookup_ainsert_self] at hk
          obtain rfl : { j0 with workerID := wid, status := "dispatched" } = j := by
            injection hk
          simp
        · rw [alookup_ainsert_ne _ _ _ _ hkq] at hk
          exact hj k j hk
      · rw [if_neg hp]
        exact ⟨hc, hj⟩
  | result j now =>
    obtain ⟨hjst, hnow⟩ := he
    have hs1 : SInv { s with jobs := ainsert j.uuid j s.jobs } := by
      refine ⟨hc, fun k j1 hk => ?_⟩
      simp only at hk
      by_cases hkq : k = j.uuid
      · subst hkq
        rw [alookup_ainsert_self] at hk
        obtain rfl : j = j1 := by injection hk
        rw [hjst]
        simp
      · rw [alookup_ainsert_ne _ _ _ _ hkq] at hk
        exact hj k j1 hk
    obtain ⟨hc1, hj1⟩ := hs1
    simp only [sstep, stepResult, checkCycleCompletion]
    by_cases hcount : (List.filter (fun p => p.2.status == "pending")
          (ainsert j.uuid j s.jobs)).length +
        (List.filter (fun p => p.2.status == "dispatched")
          (ainsert j.uuid j s.jobs)).length = 0
    · rw [if_pos hcount]
      cases hcyc : alookup j.cycleUUID s.cycles with
      | none => exact ⟨hc1, hj1⟩
      | some c0 =>
        dsimp only
        constructor
        · intro k c hk
          simp only at hk
          by_cases hkq : k = j.cycleUUID
          · subst hkq
            rw [alookup_ainsert_self] at hk
            obtain rfl : { c0 with status := "completed", doneAt := now } = c := by
              injection hk
            refine ⟨(hc _ _ hcyc).1, ?_⟩
            constructor
            · intro _; rfl
            · intro _
              show now ≠ 0
              omega
          · rw [alookup_ainsert_ne _ _ _ _ hkq] at hk
            exact hc k c hk
        · exact hj1
    · rw [if_neg hcount]
      exact ⟨hc1, hj1⟩

theorem sinv_reachable {s : StoreState} (h : ReachableStore s) : SInv s := by
  induction h with
  | init => exact sinv_init
  | step s e _ hok ih => exact sinv_step ih hok

/-- C7: in every reachable store state every cycle row has `done_at` set
(non-zero) iff its status is `completed`; a step can flip a stored cycle to
`completed` (this happens only in `checkCycleCompletion`, which sets
`done_at` and persists) only if the resulting state holds no job of that
cycle with status `pending`, `dispatched` or `processing`; and no step
creates a fresh cycle row already marked `completed`. -/
theorem cycle_completion_invariant (s : StoreState) (hreach : ReachableStore s) :
    (∀ k c, alookup k s.cycles = some c → (c.doneAt ≠ 0 ↔ c.status = "completed")) ∧
    (∀ e, OkEvent e → ∀ k c c',
      alookup k s.cycles = some c → c.status ≠ "completed" →
      alookup k (sstep s e).cycles = some c' → c'.status = "completed" →
      ∀ jk j1, alookup jk (sstep s e).jobs = some j1 → j1.cycleUUID = c'.uuid →
        j1.status ≠ "pending" ∧ j1.status ≠ "dispatched" ∧ j1.status ≠ "processing") ∧
    (∀ e, OkEvent e → ∀ k c',
      alookup k s.cycles = none → alookup k (sstep s e).cycles = some c' →
      c'.status ≠ "completed") := by
  obtain ⟨hc, hj⟩ := sinv_reachable hreach
  refine ⟨fun k c hk => (hc k c hk).2, ?_, ?_⟩
  · intro e he k c c' hk hcnot hk' hc' jk j1 hj1 hcyc1
    cases e with
    | start template stream cuuid supply now =>
      simp only [sstep, stepStart, startCycle_fst_uuid] at hk' hj1
      cases hdup : alookup cuuid s.cycles with
      | some _ =>
        rw [hdup] at hk' hj1
        dsimp only at hk' hj1
        rw [hk] at hk'
        obtain rfl : c = c' := by injection hk'
        exact absurd hc' hcnot
      | none =>
        rw [hdup] at hk' hj1
        dsimp only at hk' hj1
        by_cases hkq : k = cuuid
        · subst hkq
          rw [hk] at hdup
          exact absurd hdup (by simp)
        · rw [alookup_ainsert_ne _ _ _ _ hkq] at hk'
          rw [hk] at hk'
          obtain rfl : c = c' := by injection hk'
          exact absurd hc' hcnot
    | dispatch juuid wid =>
      simp only [sstep, stepDispatch] at hk' hj1
      cases hget : alookup juuid s.jobs with
      | none =>
        rw [hget] at hk' hj1
        dsimp only at hk' hj1
        rw [hk] at hk'
        obtain rfl : c = c' := by injection hk'
        exact absurd hc' hcnot
      | some j0 =>
        rw [hget] at hk' hj1
        dsimp only at hk' hj1
        by_cases hp : j0.status = "pending"
        · rw [if_pos hp] at hk' hj1
          simp only at hk'
          rw [hk] at hk'
          obtain rfl : c = c' := by injection hk'
          exact absurd hc' hcnot
        · rw [if_neg hp] at hk' hj1
          rw [hk] at hk'
          obtain rfl : c = c' := by injection hk'
          exact absurd hc' hcnot
    | result j now =>
      obtain ⟨hjst, hnow⟩ := he
      simp only [sstep, stepResult, checkCycleCompletion] at hk' hj1
      by_cases hcount : (List.filter (fun p => p.2.status == "pending")
            (ainsert j.uuid j s.jobs)).length +
          (List.filter (fun p => p.2.status == "dispatched")
            (ainsert j.uuid j s.jobs)).length = 0
      · rw [if_pos hcount] at hk' hj1
        cases hcyc : alookup j.cycleUUID s.cycles with
        | none =>
          rw [hcyc] at hk' hj1
          dsimp only at hk' hj1
          rw [hk] at hk'
          obtain rfl : c = c' := by injection hk'
          exact absurd hc' hcnot
        | some c0 =>
          rw [hcyc] at hk' hj1
          dsimp only at hk' hj1
          have hfp : (List.filter (fun p => p.2.status == "pending")
              (ainsert j.uuid j s.jobs)) = [] :=
            List.length_eq_zero.mp (by omega)
          have hfd : (List.filter (fun p => p.2.status == "dispatched")
              (ainsert j.uuid j s.jobs)) = [] :=
            List.length_eq_zero.mp (by omega)
          have hmem : (jk, j1) ∈ ainsert j.uuid j s.jobs := alookup_mem hj1
          refine ⟨?_, ?_, ?_⟩
          · intro hps
            have hin : (jk, j1) ∈ List.filter (fun p => p.2.status == "pending")
                (ainsert j.uuid j s.jobs) :=
              List.mem_filter.mpr ⟨hmem, by simp [hps]⟩
            rw [hfp] at hin
            simp at hin
          · intro hps
            have hin : (jk, j1) ∈ List.filter (fun p => p.2.status == "dispatched")
                (ainsert j.uuid j s.jobs) :=
              List.mem_filter.mpr ⟨hmem, by simp [hps]⟩
            rw [hfd] at hin
            simp at hin
          · by_cases hkj : jk = j.uuid
            · subst hkj
              rw [alookup_ainsert_self] at hj1
              obtain rfl : j = j1 := by injection hj1
              rw [hjst]
              simp
            · rw [alookup_ainsert_ne _ _ _ _ hkj] at hj1
              exact hj jk j1 hj1
      · rw [if_neg hcount] at hk' hj1
        rw [hk] at hk'
        obtain rfl : c = c' := by injection hk'
        exact absurd hc' hcnot
  · intro e he k c' hk hk'
    cases e with
    | start template stream cuuid supply now =>
      simp only [sstep, stepStart, startCycle_fst_uuid] at hk'
      cases hdup : alookup cuuid s.cycles with
      | some _ =>
        rw [hdup] at hk'
        dsimp only at hk'
        rw [hk] at hk'
        exact absurd hk' (by simp)
      | none =>
        rw [hdup] at hk'
        dsimp only at hk'
        by_cases hkq : k = cuuid
        · subst hkq
          rw [alookup_ainsert_self] at hk'
          obtain rfl : (startCycle template stream k supply now).1 = c' := by
            injection hk'
          rw [startCycle_fst_status]
          simp
        · rw [alookup_ainsert_ne _ _ _ _ hkq] at hk'
          rw [hk] at hk'
          exact absurd hk' (by simp)
    | dispatch juuid wid =>
      simp only [sstep, stepDispatch] at hk'
      cases hget : alookup juuid s.jobs with
      | none =>
        rw [hget, hk] at hk'
        exact absurd hk' (by simp)
      | some j0 =>
        rw [hget] at hk'
        dsimp only at hk'
        by_cases hp : j0.status = "pending"
        · rw [if_pos hp] at hk'
          simp only at hk'
          rw [hk] at hk'
          exact absurd hk' (by simp)
        · rw [if_neg hp] at hk'
          rw [hk] at hk'
          exact absurd hk' (by simp)
    | result j now =>
      simp only [sstep, stepResult, checkCycleCompletion] at hk'
      by_cases hcount : (List.filter (fun p => p.2.status == "pending")
            (ainsert j.uuid j s.jobs)).length +
          (List.filter (fun p => p.2.status == "dispatched")
            (ainsert j.uuid j s.jobs)).length = 0
      · rw [if_pos hcount] at hk'
        cases hcyc : alookup j.cycleUUID s.cycles with
        | none =>
          rw [hcyc] at hk'
          dsimp only at hk'
          rw [hk] at hk'
          exact absurd hk' (by simp)
        | some c0 =>
          rw [hcyc] at hk'
          dsimp only at hk'
          by_cases hkq : k = j.cycleUUID
          · subst hkq
            rw [hk] at hcyc
            exact absurd hcyc (by simp)
          · rw [alookup_ainsert_ne _ _ _ _ hkq] at hk'
            rw [hk] at hk'
            exact absurd hk' (by simp)
      · rw [if_neg hcount] at hk'
        rw [hk] at hk'
        exact absurd hk' (by simp)

/-- Witness for C7: the cycle row created by a concrete `StartCycle` on the
empty store satisfies the done-at/status biconditional. -/
theorem cycle_completion_invariant_witness :
    ((⟨"c1", "n", ⟨0, 1, 1, 1⟩, 3, 0, "running"⟩ : Cycle).doneAt ≠ 0 ↔
      (⟨"c1", "n", ⟨0, 1, 1, 1⟩, 3, 0, "running"⟩ : Cycle).status = "completed") :=
  (cycle_completion_invariant
    (sstep storeInit (SEvent.start ⟨"", "n", ⟨0, 1, 1, 1⟩, 0, 0, ""⟩
      [⟨"", "Alice", "alice", "en", "", ""⟩] "c1"
      (fun n => String.mk (List.replicate n 'x')) 3))
    (ReachableStore.step storeInit _ ReachableStore.init rfl)).1
    "c1" ⟨"c1", "n", ⟨0, 1, 1, 1⟩, 3, 0, "running"⟩ rfl

end Robo
